import Mathlib

/-!
Verification development for the allineato-demo repository: a shallow
embedding, in Lean, of the scraping-and-scoring pipeline (link discoverer,
chunked batch runner, retry policy, checkpointed scoring job, and the
read-side merge endpoint), together with proofs of the specified
properties.

Conventions of the embedding:
* Remote effects (the Gemini call, page fetches, per-profile scraping) are
  modelled as oracle functions passed in as parameters; an oracle value
  describes what the remote end would return on a given attempt.
* Thrown JavaScript exceptions are modelled with `Except`/`Option`; a
  `try`/`catch` block in the source corresponds to a total Lean function
  consuming the `Except`.
* JavaScript `Set` objects are modelled as lists used only through
  membership, and `number` values as `Rat` (`Int` where the source uses
  `parseInt`).
-/

/-! ## Constants (src/evaluator/index.ts lines 28-32) -/

def MAX_RETRIES : Nat := 3

def RETRY_DELAY : Nat := 5000

def BATCH_SIZE : Nat := 3

def BATCH_DELAY : Nat := 1000

/-! ## Scoring-stage data model (src/evaluator/index.ts, schemas) -/

/-- Confidence level of a score, the `confidence` enum of the score schema. -/
inductive Confidence where
  | high
  | medium
  | low
deriving DecidableEq, Repr

/-- Structured rationale of a score: summary plus positive/negative evidence. -/
structure Reasoning where
  summary : String
  greenFlagsFound : List String
  redFlagsFound : List String
deriving DecidableEq, Repr

/-- A remote score as parsed from the model reply. -/
structure TherapistScore where
  score : ℚ
  reasoning : Reasoning
  confidence : Confidence
deriving DecidableEq, Repr

/-- Modelled from the spec: the repository imports `TherapistScoreSchema`
from `./schemas`, a file not present in the sources; per the spec's remote
scoring boundary the schema validates `score: number[0,100]` (the in-repo
legacy `AnalysisSchema` likewise uses `z.number().min(0).max(100)`), and a
reply not matching the shape is rejected, triggering the retry policy. -/
def validTherapistScore (s : TherapistScore) : Bool :=
  decide (0 ≤ s.score) && decide (s.score ≤ 100)

/-- The result row of the scoring stage: `TherapistScore & { url, error? }`. -/
structure AnalysisResult where
  url : String
  score : ℚ
  reasoning : Reasoning
  confidence : Confidence
  error : Option String
deriving DecidableEq, Repr

/-- Input row of the scoring stage (`TherapistProfile` in the source): a
url plus the extracted data fields used for prompt formatting. -/
structure TherapistProfile where
  url : String
  name : String
deriving DecidableEq, Repr

/-- What one call to the remote model can come back as: a thrown error
(network failure, rate limit, or a JSON body that does not parse), an
empty text body, or a structurally parsed reply. -/
inductive RemoteResponse where
  | failure (msg : String)
  | empty
  | reply (raw : TherapistScore)

/-- `TherapistMatchingService.scoreTherapist`: call the model, throw on an
empty body, then validate the parsed reply against the score schema.
Errors are the thrown exceptions of the source. -/
def scoreTherapist (resp : RemoteResponse) : Except String TherapistScore :=
  match resp with
  | .failure msg => .error msg
  | .empty => .error "Empty response from Gemini"
  | .reply raw =>
      if validTherapistScore raw then .ok raw
      else .error "schema validation failed"

/-- The success row built by `analyzeTherapist` from a validated score. -/
def okResult (p : TherapistProfile) (s : TherapistScore) : AnalysisResult :=
  { url := p.url
    score := s.score
    reasoning := s.reasoning
    confidence := s.confidence
    error := none }

/-- The "Failed" row `analyzeTherapist` returns after exhausting retries:
score 0, a rationale summary naming the last error, and the error text. -/
def failedResult (p : TherapistProfile) (msg : String) : AnalysisResult :=
  { url := p.url
    score := 0
    reasoning :=
      { summary := "ANALYSIS FAILED: " ++ msg
        greenFlagsFound := []
        redFlagsFound := [] }
    confidence := .low
    error := some msg }

/-- The retry loop of `analyzeTherapist`. `oracle n` is what the remote
call returns on attempt number `n` (the source's `retryCount`);
`remaining` equals `MAX_RETRIES - retryCount`, so the source's guard
`retryCount < MAX_RETRIES` is the `remaining` successor test. Returns the
result together with the list of attempt numbers on which the remote
operation was invoked. -/
def analyzeGo (oracle : Nat → RemoteResponse) (p : TherapistProfile) :
    Nat → Nat → AnalysisResult × List Nat
  | retryCount, remaining =>
    match scoreTherapist (oracle retryCount) with
    | .ok s => (okResult p s, [retryCount])
    | .error msg =>
      match remaining with
      | 0 => (failedResult p msg, [retryCount])
      | r + 1 =>
        let rest := analyzeGo oracle p (retryCount + 1) r
        (rest.1, retryCount :: rest.2)

/-- `analyzeTherapist` of src/evaluator/index.ts: retry the remote scoring
call up to `MAX_RETRIES` further times, catching every error. -/
def analyzeTherapist (oracle : Nat → RemoteResponse) (p : TherapistProfile) :
    AnalysisResult :=
  (analyzeGo oracle p 0 MAX_RETRIES).1

/-- The attempt numbers on which `analyzeTherapist` invoked the remote
operation. -/
def analyzeTherapistCalls (oracle : Nat → RemoteResponse)
    (p : TherapistProfile) : List Nat :=
  (analyzeGo oracle p 0 MAX_RETRIES).2

/-! ## Scoring-stage job runner (`main` of src/evaluator/index.ts) -/

/-- The profiles still to analyze: those of the input whose url is not
among the urls of the loaded results (`analyzedUrls`). -/
def pendingProfiles (results : List AnalysisResult)
    (profiles : List TherapistProfile) : List TherapistProfile :=
  profiles.filter (fun p => !((results.map (·.url)).contains p.url))

/-- Fuel-indexed helper for `chunksOf`. The fuel, in practice the list's
length, only bounds the number of slices, keeping the recursion structural
(so the kernel can evaluate it); with positive chunk size each slice
consumes at least one element, so the fuel never runs out. -/
def chunksOfAux (n : Nat) : Nat → List α → List (List α)
  | 0, _ => []
  | _, [] => []
  | fuel + 1, x :: xs =>
    match n with
    | 0 => [x :: xs]
    | _ + 1 => (x :: xs).take n :: chunksOfAux n fuel ((x :: xs).drop n)

/-- The batch-slicing loop `for (i = 0; i < n; i += BATCH_SIZE)`:
partition a list into consecutive chunks of at most `n` elements. -/
def chunksOf (n : Nat) (l : List α) : List (List α) :=
  chunksOfAux n l.length l

/-- `processBatch`: analyze every profile of one batch (the oracle is
keyed by profile url, then by attempt number). -/
def processBatch (oracle : String → Nat → RemoteResponse)
    (batch : List TherapistProfile) : List AnalysisResult :=
  batch.map (fun p => analyzeTherapist (oracle p.url) p)

/-- `results.sort((a, b) => b.score - a.score)`: sort by score descending. -/
def sortByScoreDesc (rs : List AnalysisResult) : List AnalysisResult :=
  rs.mergeSort (fun a b => decide (b.score ≤ a.score))

/-- The final persisted content of the scoring job: with no pending
profiles the job exits leaving the loaded state untouched; otherwise each
batch's results are appended and the whole is finally sorted by score and
written once more. -/
def evaluatorFinalState (oracle : String → Nat → RemoteResponse)
    (loaded : List AnalysisResult) (profiles : List TherapistProfile) :
    List AnalysisResult :=
  if (pendingProfiles loaded profiles).isEmpty then loaded
  else sortByScoreDesc
    (loaded ++
      ((chunksOf BATCH_SIZE (pendingProfiles loaded profiles)).map
        (processBatch oracle)).flatten)

/-- Loading step of the scoring job: `none` means the output file does not
exist; otherwise the argument is the outcome of `JSON.parse` on its
content. A parse failure is caught, warned about, and yields the empty
state. Returns (loaded state, warning emitted). -/
def loadCheckpoint (file : Option (Except String (List AnalysisResult))) :
    List AnalysisResult × Bool :=
  match file with
  | none => ([], false)
  | some (Except.ok rs) => (rs, false)
  | some (Except.error _) => ([], true)

/-- Observable outcome of one run of the scoring job. -/
structure EvaluatorRun where
  warned : Bool
  processedUrls : List String
  finalState : List AnalysisResult
deriving Repr

/-- `main` of src/evaluator/index.ts: parse the input file (a parse error
there propagates and crashes the run), load the checkpoint with its
catch-all, filter already-analyzed urls, run the batches, persist. -/
def evaluatorMain (oracle : String → Nat → RemoteResponse)
    (inputParse : Except String (List TherapistProfile))
    (checkpointFile : Option (Except String (List AnalysisResult))) :
    Except String EvaluatorRun :=
  match inputParse with
  | .error e => .error e
  | .ok profiles =>
    let loaded := loadCheckpoint checkpointFile
    .ok { warned := loaded.2
          processedUrls := (pendingProfiles loaded.1 profiles).map (·.url)
          finalState := evaluatorFinalState oracle loaded.1 profiles }

/-! ## Claim-C3 instrumentation: does a result record an attempt count? -/

/-- Boolean list-prefix test. -/
def listPref : List Char → List Char → Bool
  | [], _ => true
  | _ :: _, [] => false
  | a :: p, b :: s => a = b && listPref p s

/-- Boolean substring test on character lists. -/
def listSub (p s : List Char) : Bool :=
  s.tails.any (listPref p)

/-- Whether the decimal rendering of `n` occurs anywhere in the string. -/
def strMentions (s : String) (n : Nat) : Bool :=
  listSub (toString n).toList s.toList

/-- Whether an analysis row records the number `n` in any of its fields:
as its score, or textually inside its summary, its evidence lists, or its
error message. -/
def mentionsAttemptCount (r : AnalysisResult) (n : Nat) : Bool :=
  (r.score == (n : ℚ)) || strMentions r.reasoning.summary n ||
    (r.reasoning.greenFlagsFound.any (fun f => strMentions f n)) ||
    (r.reasoning.redFlagsFound.any (fun f => strMentions f n)) ||
    (match r.error with
     | some e => strMentions e n
     | none => false)

/-- Concrete profile used to instantiate theorems. -/
def pX : TherapistProfile := { url := "https://example.org/p1", name := "Dr. X" }

/-- An oracle whose remote call fails on every attempt. -/
def oracleBoom : Nat → RemoteResponse := fun _ => .failure "boom"

/-! ## Extraction-stage data model (doctor-scraper.ts, batch-scraper) -/

/-- The record `scrapeDoctorInfo` extracts from one detail page; every
field other than the name and about text is independently nullable. -/
structure DoctorInfo where
  name : String
  rating : Option ℚ
  reviewCount : Option Int
  aboutText : String
  extendedAbout : Option String
  avatar : Option String
deriving DecidableEq, Repr

/-- One row of doctor-results.json (`DoctorResult` in the batch scraper). -/
structure DoctorResult where
  url : String
  data : Option DoctorInfo
  error : Option String
  pageNumber : Option Nat
deriving DecidableEq, Repr

/-! ## Link discoverer (`getDoctorLinksWithPagination`, batch scraper) -/

/-- The pagination loop of `getDoctorLinksWithPagination`. `fetch n` is
the raw (already `http`-filtered) link list `$$eval` extracts from listing
page `n`, `none` standing for a navigation failure there (caught: the walk
proceeds to the next page number). `seen` is the cross-page dedup set
`allUniqueUrls` and `fuel` the number of page indices left before the
`maxPages` cap. Returns the emitted (new links, page number) groups
together with the list of page numbers actually fetched. -/
def discoverLoop (fetch : Nat → Option (List String)) :
    Nat → List String → Nat → List (List String × Nat) × List Nat
  | _, _, 0 => ([], [])
  | pageNum, seen, fuel + 1 =>
    match fetch pageNum with
    | none =>
      let rest := discoverLoop fetch (pageNum + 1) seen fuel
      (rest.1, pageNum :: rest.2)
    | some links =>
      let newUnique := links.filter (fun l => !(seen.contains l))
      if links.isEmpty then ([], [pageNum])
      else
        let rest := discoverLoop fetch (pageNum + 1) (seen ++ newUnique) fuel
        ((if newUnique.isEmpty then rest.1 else (newUnique, pageNum) :: rest.1),
         pageNum :: rest.2)

/-- `getDoctorLinksWithPagination`: walk pages 1..maxPages, emitting each
page's globally new links as one group. -/
def getDoctorLinksWithPagination (fetch : Nat → Option (List String))
    (maxPages : Nat) : List (List String × Nat) :=
  (discoverLoop fetch 1 [] maxPages).1

/-- The page numbers the discoverer actually navigated to. -/
def visitedPages (fetch : Nat → Option (List String)) (maxPages : Nat) :
    List Nat :=
  (discoverLoop fetch 1 [] maxPages).2

/-! ## Batch scraping runner (`scrapeMultipleDoctors`, batch scraper) -/

/-- The per-item task body: scrape one url, converting a thrown error into
a failure row; both outcomes carry the url and page number. -/
def scrapeOutcome (scrape : String → Except String DoctorInfo) (url : String)
    (pageNumber : Nat) : DoctorResult :=
  match scrape url with
  | .ok d => { url := url, data := some d, error := none, pageNumber := some pageNumber }
  | .error e => { url := url, data := none, error := some e, pageNumber := some pageNumber }

/-- One `Promise.all` chunk of `scrapeMultipleDoctors`. All the
`scrapedUrls.has` checks run synchronously when the chunk's tasks start,
before any task reaches its first await, so every membership test sees the
session set as it was at chunk start; a member already in the set yields
`null` and is filtered out of the collected results. Every attempted url
(success or error) is added to the set. -/
def processChunk (scrape : String → Except String DoctorInfo)
    (pageNumber : Nat) (seen : List String) (chunk : List String) :
    List DoctorResult × List String :=
  (chunk.filterMap (fun url =>
      if seen.contains url then none else some (scrapeOutcome scrape url pageNumber)),
   seen ++ chunk.filter (fun url => !(seen.contains url)))

/-- The sequential chunk loop over one page's links: each chunk is awaited
in full (and its rows appended to the results) before the next starts. -/
def runChunks (scrape : String → Except String DoctorInfo) (pageNumber : Nat)
    (seen : List String) : List (List String) → List DoctorResult × List String
  | [] => ([], seen)
  | c :: cs =>
    let r := processChunk scrape pageNumber seen c
    let rest := runChunks scrape pageNumber r.2 cs
    (r.1 ++ rest.1, rest.2)

/-- The batch run over one page's links: slice into chunks of at most
`concurrency` items and process them sequentially. -/
def processPageLinks (scrape : String → Except String DoctorInfo)
    (pageNumber : Nat) (concurrency : Nat) (seen : List String)
    (links : List String) : List DoctorResult × List String :=
  runChunks scrape pageNumber seen (chunksOf concurrency links)

/-- `scrapeMultipleDoctors`: discover the page groups, then run the
chunked batch scraper over each group in order, threading the session's
`scrapedUrls` set through. -/
def scrapeMultipleDoctors (fetch : Nat → Option (List String))
    (scrape : String → Except String DoctorInfo) (concurrency maxPages : Nat) :
    List DoctorResult :=
  ((getDoctorLinksWithPagination fetch maxPages).foldl
    (fun acc pg =>
      let r := processPageLinks scrape pg.2 concurrency acc.2 pg.1
      (acc.1 ++ r.1, r.2))
    ([], [])).1

/-! ## Extraction-stage entry point (`main` of the scrape entry script) -/

/-- Observable outcome of one run of the extraction-stage entry point. -/
structure ScraperRun where
  processed : List String
  persistedWrites : List (List DoctorResult)
  batchesRun : Nat
deriving Repr

/-- `main` of the scrape entry script: run `scrapeMultipleDoctors` and
write doctor-results.json once at the end. The `prior` argument is the
content of doctor-results.json already on disk when the run starts; the
script never reads that file, so the argument is unused. -/
def scraperMain (_prior : Option (List DoctorResult))
    (fetch : Nat → Option (List String))
    (scrape : String → Except String DoctorInfo) (concurrency maxPages : Nat) :
    ScraperRun :=
  let results := scrapeMultipleDoctors fetch scrape concurrency maxPages
  { processed := results.map (·.url)
    persistedWrites := [results]
    batchesRun :=
      ((getDoctorLinksWithPagination fetch maxPages).map
        (fun pg => (chunksOf concurrency pg.1).length)).sum }

/-! ## Concurrency trace model for the chunked batch runner -/

/-- An event of a batch-runner execution: a per-item operation starting or
finishing. -/
inductive BatchEv where
  | start (url : String)
  | finish (url : String)
deriving DecidableEq, Repr

/-- Number of start events in a trace. -/
def startCount (tr : List BatchEv) : Nat :=
  (tr.filterMap (fun e => match e with | .start u => some u | .finish _ => none)).length

/-- Number of finish events in a trace. -/
def finishCount (tr : List BatchEv) : Nat :=
  (tr.filterMap (fun e => match e with | .finish u => some u | .start _ => none)).length

/-- Operations in flight after a trace: started but not yet finished. -/
def inFlight (tr : List BatchEv) : Nat :=
  startCount tr - finishCount tr

/-- The event segment one chunk contributes: because the runner launches
exactly the chunk's items and `Promise.all` joins them all before the loop
continues, the segment holds one start and one finish per chunk item and
nothing else, in some interleaving. -/
def ChunkSeg (chunk : List String) (seg : List BatchEv) : Prop :=
  (seg.filterMap (fun e => match e with | .start u => some u | .finish _ => none)).Perm chunk ∧
  (seg.filterMap (fun e => match e with | .finish u => some u | .start _ => none)).Perm chunk

/-- The traces one batch-runner invocation over `items` with concurrency
`n` can produce: the concatenation, chunk by chunk in order, of one
segment per chunk — the next chunk's events all come after the previous
chunk's join. -/
def RunTrace (items : List String) (n : Nat) (tr : List BatchEv) : Prop :=
  ∃ segs : List (List BatchEv),
    List.Forall₂ ChunkSeg (chunksOf n items) segs ∧ tr = segs.flatten

/-! ## Read-side merge endpoint (`/api/therapists`) -/

/-- The three fields the endpoint copies over from the extraction data. -/
structure MergedFields where
  rating : Option ℚ
  reviewCount : Option Int
  avatar : Option String
deriving DecidableEq, Repr

/-- JavaScript `x || null` on an optional number: both `undefined` and the
falsy `0` become `null`. -/
def jsOrNullRat (v : Option ℚ) : Option ℚ :=
  match v with
  | some x => if x = 0 then none else some x
  | none => none

/-- JavaScript `x || null` on an optional integer. -/
def jsOrNullInt (v : Option Int) : Option Int :=
  match v with
  | some x => if x = 0 then none else some x
  | none => none

/-- JavaScript `x || null` on an optional string: `undefined` and the
falsy empty string become `null`. -/
def jsOrNullStr (v : Option String) : Option String :=
  match v with
  | some s => if s = "" then none else some s
  | none => none

/-- `new Map(doctorData.map(doc => [doc.url, doc.data]))` followed by
`.get(url)`: the last entry with the url wins; the stored value can itself
be the `null` data of a failed extraction row. -/
def doctorMapGet (doctorData : List DoctorResult) (url : String) :
    Option (Option DoctorInfo) :=
  (doctorData.reverse.find? (fun d => d.url == url)).map (·.data)

/-- The merged fields computed from `doctorMap.get(url)?.field || null`
for one looked-up data value (`none` when the url is absent from the map
or its data is `null`). -/
def mergeFields (d : Option DoctorInfo) : MergedFields :=
  { rating := jsOrNullRat (d.bind (·.rating))
    reviewCount := jsOrNullInt (d.bind (·.reviewCount))
    avatar := jsOrNullStr (d.bind (·.avatar)) }

/-- The rating/reviewCount/avatar fields of the merged row the endpoint
serves for one analysis row's url. -/
def mergeTherapistRow (doctorData : List DoctorResult) (url : String) :
    MergedFields :=
  mergeFields ((doctorMapGet doctorData url).join)

/-! ## Concrete inputs used to instantiate the theorems -/

/-- Scenario A listing: page 2 has zero raw links, page 3 has content the
walk must never see. -/
def fetchA : Nat → Option (List String) := fun n =>
  if n = 1 then some ["a"] else if n = 2 then some [] else if n = 3 then some ["c"] else none

/-- A two-page listing whose raw link sets overlap on "b". -/
def fetchC : Nat → Option (List String) := fun n =>
  if n = 1 then some ["a", "b"] else if n = 2 then some ["b", "c"] else some []

/-- A one-page listing with items "a" and "b". -/
def fetch2 : Nat → Option (List String) := fun n =>
  if n = 1 then some ["a", "b"] else some []

/-- A concrete extraction record. -/
def infoW : DoctorInfo :=
  { name := "Dr"
    rating := none
    reviewCount := none
    aboutText := "bio"
    extendedAbout := none
    avatar := none }

/-- A scrape oracle that always succeeds. -/
def scrape2 : String → Except String DoctorInfo := fun _ => .ok infoW

/-- A scrape oracle for which url "b" throws. -/
def scrapeW : String → Except String DoctorInfo := fun u =>
  if u = "b" then .error "net" else .ok infoW

/-- A result row for url "a", as a previously persisted extraction file
would contain it. -/
def recA : DoctorResult :=
  { url := "a", data := some infoW, error := none, pageNumber := some 1 }

/-- An extraction record whose rating and review count are 0 and whose
avatar is the empty string. -/
def infoZeroW : DoctorInfo :=
  { name := "Dr0"
    rating := some 0
    reviewCount := some 0
    aboutText := "bio"
    extendedAbout := none
    avatar := some "" }

/-- A doctor-results row holding `infoZeroW` under url "u". -/
def docW : DoctorResult :=
  { url := "u", data := some infoZeroW, error := none, pageNumber := some 1 }

/-- A concrete batch-runner trace over items ["a", "b", "c"] with
concurrency 2: the first chunk's two items overlap in flight, the third
item runs after the chunk barrier. -/
def trW : List BatchEv :=
  [.start "a", .start "b", .finish "b", .finish "a", .start "c", .finish "c"]

/-! # Theorems -/

/-! ## Chunking lemmas -/

theorem chunksOfAux_flatten (n : Nat) :
    ∀ (fuel : Nat) (l : List α), l.length ≤ fuel →
      (chunksOfAux n fuel l).flatten = l := by
  intro fuel
  induction fuel with
  | zero =>
    intro l hl
    have : l = [] := List.eq_nil_of_length_eq_zero (Nat.le_zero.mp hl)
    subst this
    rfl
  | succ f ih =>
    intro l hl
    cases l with
    | nil => rfl
    | cons x xs =>
      cases n with
      | zero => simp [chunksOfAux]
      | succ m =>
        simp only [chunksOfAux, List.flatten_cons]
        rw [ih ((x :: xs).drop (m + 1)) (by simp at hl ⊢; omega)]
        exact List.take_append_drop (m + 1) (x :: xs)

theorem chunksOf_flatten (n : Nat) (l : List α) : (chunksOf n l).flatten = l :=
  chunksOfAux_flatten n l.length l (Nat.le_refl _)

theorem chunksOfAux_length_le (n : Nat) (hn : 0 < n) :
    ∀ (fuel : Nat) (l : List α), ∀ c ∈ chunksOfAux n fuel l, c.length ≤ n := by
  intro fuel
  induction fuel with
  | zero => intro l c hc; simp [chunksOfAux] at hc
  | succ f ih =>
    intro l c hc
    cases l with
    | nil => simp [chunksOfAux] at hc
    | cons x xs =>
      cases n with
      | zero => omega
      | succ m =>
        rcases List.mem_cons.mp hc with hceq | hctail
        · subst hceq; exact (x :: xs).length_take_le (m + 1)
        · exact ih ((x :: xs).drop (m + 1)) c hctail

theorem chunksOf_length_le (n : Nat) (hn : 0 < n) (l : List α) :
    ∀ c ∈ chunksOf n l, c.length ≤ n :=
  chunksOfAux_length_le n hn l.length l

/-! ## Claim C1: the scoring job analyzes exactly the unanalyzed profiles
and appends exactly one record per pending profile -/

/-- C1: for every loaded checkpoint state R and input profile list P, the
scoring job's pending set is exactly the profiles of P whose url is not
among the urls of R (so checkpointed identifiers are never scored again),
and the persisted final state is, up to the final score sort, R plus
exactly one new analysis record per pending profile. -/
theorem C1_scoring_resume (oracle : String → Nat → RemoteResponse)
    (R : List AnalysisResult) (P : List TherapistProfile) :
    pendingProfiles R P = P.filter (fun p => !((R.map (·.url)).contains p.url)) ∧
    (evaluatorFinalState oracle R P).Perm
      (R ++ (pendingProfiles R P).map (fun p => analyzeTherapist (oracle p.url) p)) := by
  refine ⟨rfl, ?_⟩
  by_cases hp : (pendingProfiles R P).isEmpty
  · have hnil : pendingProfiles R P = [] := List.isEmpty_iff.mp hp
    simp [evaluatorFinalState, hp, hnil]
  · have hmain : ((chunksOf BATCH_SIZE (pendingProfiles R P)).map (processBatch oracle)).flatten
        = (pendingProfiles R P).map (fun p => analyzeTherapist (oracle p.url) p) := by
      rw [show processBatch oracle
          = fun b => b.map (fun p => analyzeTherapist (oracle p.url) p) from rfl]
      rw [← List.map_flatten, chunksOf_flatten]
    unfold evaluatorFinalState
    rw [if_neg hp]
    exact (List.mergeSort_perm _ _).trans (by rw [hmain])

/-! ## Claim C4: a corrupt checkpoint degrades to the empty state -/

/-- C4: for every checkpoint file whose content fails to parse as JSON,
the scoring job's load step yields the empty state with a warning, the
run completes without crashing (it returns a result rather than an
error), and every input profile is processed from scratch. -/
theorem C4_corrupt_checkpoint (oracle : String → Nat → RemoteResponse)
    (P : List TherapistProfile) (e : String) :
    ∃ run, evaluatorMain oracle (.ok P) (some (.error e)) = .ok run ∧
      run.warned = true ∧
      run.processedUrls = P.map (·.url) ∧
      run.finalState = evaluatorFinalState oracle [] P := by
  refine ⟨_, rfl, rfl, ?_, rfl⟩
  simp [pendingProfiles, loadCheckpoint]

/-! ## Claim C3: retry exhaustion -/

theorem analyzeGo_fail (oracle : Nat → RemoteResponse) (p : TherapistProfile)
    (h : ∀ n, ∃ m, scoreTherapist (oracle n) = Except.error m) :
    ∀ remaining retryCount, ∃ lastMsg,
      scoreTherapist (oracle (retryCount + remaining)) = Except.error lastMsg ∧
      analyzeGo oracle p retryCount remaining =
        (failedResult p lastMsg, List.range' retryCount (remaining + 1)) := by
  intro remaining
  induction remaining with
  | zero =>
    intro rc
    obtain ⟨m, hm⟩ := h rc
    exact ⟨m, by simpa using hm, by simp [analyzeGo, hm, List.range']⟩
  | succ r ih =>
    intro rc
    obtain ⟨m, hm⟩ := h rc
    obtain ⟨lm, hlm, hgo⟩ := ih (rc + 1)
    refine ⟨lm, ?_, ?_⟩
    · rw [show rc + (r + 1) = rc + 1 + r by omega]
      exact hlm
    · rw [analyzeGo, hm]
      simp [hgo, List.range'_succ]

/-- C3 counterexample: with a remote operation failing on every attempt
("boom"), `analyzeTherapist` consumes exactly 4 attempts (numbers 0-3) and
returns the failure row embedding the last error message — but no field of
that row records the attempt count 4, refuting the claim that the Failure
outcome embeds the attempt count consumed. -/
theorem C3_counterexample :
    analyzeTherapist oracleBoom pX = failedResult pX "boom" ∧
    analyzeTherapistCalls oracleBoom pX = [0, 1, 2, 3] ∧
    mentionsAttemptCount (analyzeTherapist oracleBoom pX) 4 = false := by
  decide

/-- C3 (amended): for every scoring work item whose remote operation fails
on every attempt, the operation is invoked exactly MAX_RETRIES + 1 = 4
times (attempts 0 through MAX_RETRIES), after which `analyzeTherapist`
returns — rather than propagating an exception — the Failure row embedding
the last error's message in its error field and rationale summary; the
attempt count consumed is not part of the returned row. -/
theorem C3_retry_exhaustion (oracle : Nat → RemoteResponse) (p : TherapistProfile)
    (h : ∀ n, ∃ m, scoreTherapist (oracle n) = Except.error m) :
    ∃ lastMsg, scoreTherapist (oracle MAX_RETRIES) = Except.error lastMsg ∧
      analyzeTherapistCalls oracle p = List.range' 0 (MAX_RETRIES + 1) ∧
      (analyzeTherapistCalls oracle p).length = MAX_RETRIES + 1 ∧
      analyzeTherapist oracle p = failedResult p lastMsg ∧
      (analyzeTherapist oracle p).error = some lastMsg ∧
      (analyzeTherapist oracle p).reasoning.summary = "ANALYSIS FAILED: " ++ lastMsg := by
  obtain ⟨lm, hlm, hgo⟩ := analyzeGo_fail oracle p h MAX_RETRIES 0
  refine ⟨lm, by simpa using hlm, ?_, ?_, ?_, ?_, ?_⟩ <;>
    simp [analyzeTherapistCalls, analyzeTherapist, hgo, failedResult,
      List.length_range']

theorem C3_retry_exhaustion_witness :
    analyzeTherapist oracleBoom pX = failedResult pX "boom" ∧
    analyzeTherapistCalls oracleBoom pX = List.range' 0 (MAX_RETRIES + 1) := by
  obtain ⟨lm, hlm, hcalls, _, hres, _, _⟩ :=
    C3_retry_exhaustion oracleBoom pX (fun _ => ⟨"boom", rfl⟩)
  have hb : lm = "boom" := by
    have : Except.error (ε := String) "boom" = Except.error lm := hlm
    exact (Except.error.inj this).symm
  exact ⟨hb ▸ hres, hcalls⟩

/-! ## Claim C7: score bounds and failure encoding -/

/-- C2 counterexample: with a persisted extraction file already containing
a record for url "a" and a listing offering items "a" and "b", the
extraction run still processes "a" (nothing is skipped from the persisted
state), and although the run executes 2 batches it persists only once, at
the end — refuting both halves of the claim. -/
theorem C2_counterexample :
    (scraperMain (some [recA]) fetch2 scrape2 1 1).processed = ["a", "b"] ∧
    "a" ∈ (scraperMain (some [recA]) fetch2 scrape2 1 1).processed ∧
    (scraperMain (some [recA]) fetch2 scrape2 1 1).batchesRun = 2 ∧
    (scraperMain (some [recA]) fetch2 scrape2 1 1).persistedWrites.length = 1 := by
  decide

/-- C2 (amended): the extraction-stage job runner does not load a
previously persisted result set — its behaviour is identical whatever is
already on disk, so previously persisted identifiers are scraped again —
and it persists the accumulated result set exactly once, at the end of the
run, not after every batch; deduplication happens only within the session
via the in-memory scrapedUrls set. -/
theorem C2_no_resume (prior : Option (List DoctorResult))
    (fetch : Nat → Option (List String))
    (scrape : String → Except String DoctorInfo) (concurrency maxPages : Nat) :
    scraperMain prior fetch scrape concurrency maxPages =
      scraperMain none fetch scrape concurrency maxPages ∧
    (scraperMain prior fetch scrape concurrency maxPages).persistedWrites =
      [scrapeMultipleDoctors fetch scrape concurrency maxPages] :=
  ⟨rfl, rfl⟩

/-! ## Claim C10: falsy extraction values merge to null -/

/-- C10: in the /api/therapists merge, each of the rating, reviewCount and
avatar fields of a served row is null whenever the looked-up extraction
value is absent or falsy — a rating or review count of 0, or an empty
avatar string, is served as null, making such a record indistinguishable
(on these fields) from a missing extraction record. -/
theorem C10_merge_falsy (doctorData : List DoctorResult) (url : String)
    (d : DoctorInfo) (hlookup : (doctorMapGet doctorData url).join = some d) :
    ((d.rating = none ∨ d.rating = some 0) →
      (mergeTherapistRow doctorData url).rating = none) ∧
    ((d.reviewCount = none ∨ d.reviewCount = some 0) →
      (mergeTherapistRow doctorData url).reviewCount = none) ∧
    ((d.avatar = none ∨ d.avatar = some "") →
      (mergeTherapistRow doctorData url).avatar = none) ∧
    (d.rating = some 0 → d.reviewCount = some 0 → d.avatar = some "" →
      mergeTherapistRow doctorData url = mergeFields none) ∧
    mergeFields none = ⟨none, none, none⟩ := by
  unfold mergeTherapistRow
  rw [hlookup]
  refine ⟨?_, ?_, ?_, ?_, rfl⟩
  · rintro (h | h) <;> simp [mergeFields, jsOrNullRat, h]
  · rintro (h | h) <;> simp [mergeFields, jsOrNullInt, h]
  · rintro (h | h) <;> simp [mergeFields, jsOrNullStr, h]
  · intro h1 h2 h3
    simp [mergeFields, jsOrNullRat, jsOrNullInt, jsOrNullStr, h1, h2, h3]

theorem C10_merge_falsy_witness :
    mergeTherapistRow [docW] "u" = mergeFields none := by
  have h := C10_merge_falsy [docW] "u" infoZeroW (by decide)
  exact h.2.2.2.1 rfl rfl rfl

/-! ## Claim C8: one outcome per identifier in a batch run -/

theorem scrapeOutcome_url (scrape : String → Except String DoctorInfo)
    (url : String) (pg : Nat) : (scrapeOutcome scrape url pg).url = url := by
  cases h : scrape url <;> simp [scrapeOutcome, h]

theorem scrapeOutcome_shape (scrape : String → Except String DoctorInfo)
    (url : String) (pg : Nat) :
    (∃ d, (scrapeOutcome scrape url pg).data = some d ∧
      (scrapeOutcome scrape url pg).error = none) ∨
    ((scrapeOutcome scrape url pg).data = none ∧
      ∃ e, (scrapeOutcome scrape url pg).error = some e) := by
  cases h : scrape url with
  | ok d => exact Or.inl ⟨d, by simp [scrapeOutcome, h], by simp [scrapeOutcome, h]⟩
  | error e => exact Or.inr ⟨by simp [scrapeOutcome, h], e, by simp [scrapeOutcome, h]⟩

theorem filterMap_skip_none (seen : List String) (f : String → DoctorResult)
    (chunk : List String) (h : ∀ l ∈ chunk, l ∉ seen) :
    chunk.filterMap (fun url => if seen.contains url then none else some (f url))
      = chunk.map f := by
  induction chunk with
  | nil => rfl
  | cons c cs ih =>
    have hmem : c ∉ seen := h c (List.mem_cons_self c cs)
    have ih' := ih (fun l hl => h l (List.mem_cons_of_mem c hl))
    simp [List.filterMap_cons, hmem] at ih' ⊢
    exact ih'

theorem filter_not_seen (seen chunk : List String) (h : ∀ l ∈ chunk, l ∉ seen) :
    chunk.filter (fun url => !(seen.contains url)) = chunk := by
  refine List.filter_eq_self.mpr ?_
  intro a ha
  simp [h a ha]

theorem runChunks_spec (scrape : String → Except String DoctorInfo) (pg : Nat) :
    ∀ (chunks : List (List String)) (seen : List String),
      chunks.flatten.Nodup → (∀ l ∈ chunks.flatten, l ∉ seen) →
      (runChunks scrape pg seen chunks).1.map (·.url) = chunks.flatten ∧
      ∀ r ∈ (runChunks scrape pg seen chunks).1,
        (∃ d, r.data = some d ∧ r.error = none) ∨
        (r.data = none ∧ ∃ e, r.error = some e) := by
  intro chunks
  induction chunks with
  | nil => exact fun seen _ _ => ⟨rfl, by simp [runChunks]⟩
  | cons c cs ih =>
    intro seen hnd hdisj
    rw [List.flatten_cons] at hnd hdisj
    have hcdisj : ∀ l ∈ c, l ∉ seen :=
      fun l hl => hdisj l (List.mem_append_left _ hl)
    have hout : (processChunk scrape pg seen c).1
        = c.map (fun u => scrapeOutcome scrape u pg) :=
      filterMap_skip_none seen _ c hcdisj
    have hseen : (processChunk scrape pg seen c).2 = seen ++ c := by
      unfold processChunk
      rw [filter_not_seen seen c hcdisj]
    have hsplit := List.nodup_append.mp hnd
    have hdisj2 : ∀ l ∈ cs.flatten, l ∉ seen ++ c := by
      intro l hl
      have h1 : l ∉ seen := hdisj l (List.mem_append_right _ hl)
      have h2 : l ∉ c := fun hc => hsplit.2.2 hc hl
      simp [h1, h2]
    obtain ⟨ih1, ih2⟩ := ih (seen ++ c) hsplit.2.1 hdisj2
    rw [runChunks] at *
    constructor
    · rw [List.map_append, hout, hseen, ih1, List.map_map]
      congr 1
      calc c.map (fun u => (scrapeOutcome scrape u pg).url)
          = c.map id := List.map_congr_left (fun a _ => scrapeOutcome_url scrape a pg)
        _ = c := List.map_id c
    · intro r hr
      rcases List.mem_append.mp hr with hr | hr
      · rw [hout] at hr
        obtain ⟨u, _, hu⟩ := List.mem_map.mp hr
        exact hu ▸ scrapeOutcome_shape scrape u pg
      · rw [hseen] at hr
        exact ih2 r hr

/-- C8: for every list of work items fed to a batch run (no duplicate
identifiers, none already in the session set), the collected output holds
exactly one outcome row per input identifier — a success row with data or
a failure row with error text — so one item's failure neither cancels its
chunk siblings nor drops the item from the results. -/
theorem C8_batch_accounting (scrape : String → Except String DoctorInfo)
    (pageNumber concurrency : Nat) (seen : List String) (links : List String)
    (hnd : links.Nodup) (hdisj : ∀ l ∈ links, l ∉ seen) :
    (processPageLinks scrape pageNumber concurrency seen links).1.map (·.url) = links ∧
    ∀ r ∈ (processPageLinks scrape pageNumber concurrency seen links).1,
      (∃ d, r.data = some d ∧ r.error = none) ∨
      (r.data = none ∧ ∃ e, r.error = some e) := by
  unfold processPageLinks
  have hfl := chunksOf_flatten concurrency links
  obtain ⟨h1, h2⟩ := runChunks_spec scrape pageNumber (chunksOf concurrency links)
    seen (by rw [hfl]; exact hnd) (by rw [hfl]; exact hdisj)
  rw [hfl] at h1
  exact ⟨h1, h2⟩

theorem C8_batch_accounting_witness :
    (processPageLinks scrapeW 1 2 [] ["a", "b"]).1.map (·.url) = ["a", "b"] :=
  (C8_batch_accounting scrapeW 1 2 [] ["a", "b"] (by decide) (by decide)).1

/-! ## Claims C5 and C6: link-discoverer invariants -/

theorem discoverLoop_none (fetch : Nat → Option (List String))
    (pageNum : Nat) (seen : List String) (f : Nat) (hf : fetch pageNum = none) :
    discoverLoop fetch pageNum seen (f + 1)
      = ((discoverLoop fetch (pageNum + 1) seen f).1,
         pageNum :: (discoverLoop fetch (pageNum + 1) seen f).2) := by
  simp [discoverLoop, hf]

theorem discoverLoop_none_snd (fetch : Nat → Option (List String))
    (pageNum : Nat) (seen : List String) (f : Nat) (hf : fetch pageNum = none) :
    (discoverLoop fetch pageNum seen (f + 1)).2
      = pageNum :: (discoverLoop fetch (pageNum + 1) seen f).2 := by
  rw [discoverLoop_none fetch pageNum seen f hf]

theorem discoverLoop_some_nil (fetch : Nat → Option (List String))
    (pageNum : Nat) (seen : List String) (f : Nat) (hf : fetch pageNum = some []) :
    discoverLoop fetch pageNum seen (f + 1) = ([], [pageNum]) := by
  simp [discoverLoop, hf]

theorem discoverLoop_some_nil_snd (fetch : Nat → Option (List String))
    (pageNum : Nat) (seen : List String) (f : Nat) (hf : fetch pageNum = some []) :
    (discoverLoop fetch pageNum seen (f + 1)).2 = [pageNum] := by
  rw [discoverLoop_some_nil fetch pageNum seen f hf]

theorem discoverLoop_some (fetch : Nat → Option (List String))
    (pageNum : Nat) (seen : List String) (f : Nat) (links : List String)
    (hf : fetch pageNum = some links) (hne : ¬(links.isEmpty = true)) :
    discoverLoop fetch pageNum seen (f + 1)
      = (if (links.filter (fun l => !(seen.contains l))).isEmpty
          then (discoverLoop fetch (pageNum + 1)
            (seen ++ links.filter (fun l => !(seen.contains l))) f).1
          else (links.filter (fun l => !(seen.contains l)), pageNum) ::
            (discoverLoop fetch (pageNum + 1)
              (seen ++ links.filter (fun l => !(seen.contains l))) f).1,
         pageNum :: (discoverLoop fetch (pageNum + 1)
           (seen ++ links.filter (fun l => !(seen.contains l))) f).2) := by
  simp only [discoverLoop, hf]
  rw [if_neg hne]

theorem discoverLoop_some_fst (fetch : Nat → Option (List String))
    (pageNum : Nat) (seen : List String) (f : Nat) (links : List String)
    (hf : fetch pageNum = some links) (hne : ¬(links.isEmpty = true)) :
    (discoverLoop fetch pageNum seen (f + 1)).1
      = if (links.filter (fun l => !(seen.contains l))).isEmpty
          then (discoverLoop fetch (pageNum + 1)
            (seen ++ links.filter (fun l => !(seen.contains l))) f).1
          else (links.filter (fun l => !(seen.contains l)), pageNum) ::
            (discoverLoop fetch (pageNum + 1)
              (seen ++ links.filter (fun l => !(seen.contains l))) f).1 := by
  rw [discoverLoop_some fetch pageNum seen f links hf hne]

theorem discoverLoop_some_snd (fetch : Nat → Option (List String))
    (pageNum : Nat) (seen : List String) (f : Nat) (links : List String)
    (hf : fetch pageNum = some links) (hne : ¬(links.isEmpty = true)) :
    (discoverLoop fetch pageNum seen (f + 1)).2
      = pageNum :: (discoverLoop fetch (pageNum + 1)
          (seen ++ links.filter (fun l => !(seen.contains l))) f).2 := by
  rw [discoverLoop_some fetch pageNum seen f links hf hne]

theorem discoverLoop_visited_lb (fetch : Nat → Option (List String)) :
    ∀ (fuel pageNum : Nat) (seen : List String) (k : Nat),
      k ∈ (discoverLoop fetch pageNum seen fuel).2 → pageNum ≤ k := by
  intro fuel
  induction fuel with
  | zero =>
    intro pageNum seen k hk
    simp [discoverLoop] at hk
  | succ f ih =>
    intro pageNum seen k hk
    cases hf : fetch pageNum with
    | none =>
      rw [discoverLoop_none_snd fetch pageNum seen f hf] at hk
      rcases List.mem_cons.mp hk with rfl | hk
      · exact Nat.le_refl _
      · exact Nat.le_of_succ_le (ih (pageNum + 1) seen k hk)
    | some links =>
      by_cases hemp : links.isEmpty
      · have hnil : links = [] := List.isEmpty_iff.mp hemp
        subst hnil
        rw [discoverLoop_some_nil_snd fetch pageNum seen f hf] at hk
        rw [List.mem_singleton] at hk
        subst hk
        exact Nat.le_refl _
      · rw [discoverLoop_some_snd fetch pageNum seen f links hf hemp] at hk
        rcases List.mem_cons.mp hk with rfl | hk
        · exact Nat.le_refl _
        · exact Nat.le_of_succ_le (ih (pageNum + 1) _ k hk)

theorem discoverLoop_spec (fetch : Nat → Option (List String))
    (hnd : ∀ n links, fetch n = some links → links.Nodup) :
    ∀ (fuel pageNum : Nat) (seen : List String),
      (∀ l, l ∈ ((discoverLoop fetch pageNum seen fuel).1.map Prod.fst).flatten ↔
        (l ∉ seen ∧ ∃ n ∈ (discoverLoop fetch pageNum seen fuel).2,
          ∃ links, fetch n = some links ∧ l ∈ links)) ∧
      ((discoverLoop fetch pageNum seen fuel).1.map Prod.fst).flatten.Nodup ∧
      (∀ g n, (g, n) ∈ (discoverLoop fetch pageNum seen fuel).1 →
        g ≠ [] ∧ n ∈ (discoverLoop fetch pageNum seen fuel).2 ∧
        ∃ links, fetch n = some links ∧ ∀ l ∈ g, l ∈ links) ∧
      (∀ g n, (g, n) ∈ (discoverLoop fetch pageNum seen fuel).1 →
        ∀ l ∈ g, ∀ m ∈ (discoverLoop fetch pageNum seen fuel).2, m < n →
        ∀ links', fetch m = some links' → l ∉ links') := by
  intro fuel
  induction fuel with
  | zero =>
    intro pageNum seen
    refine ⟨?_, ?_, ?_, ?_⟩ <;> simp [discoverLoop]
  | succ f ih =>
    intro pageNum seen
    cases hf : fetch pageNum with
    | none =>
      obtain ⟨ih1, ih2, ih3, ih4⟩ := ih (pageNum + 1) seen
      rw [discoverLoop_none fetch pageNum seen f hf]
      refine ⟨?_, ih2, ?_, ?_⟩
      · intro l
        rw [ih1 l]
        constructor
        · rintro ⟨hls, n, hn, links, hfn, hl⟩
          exact ⟨hls, n, List.mem_cons_of_mem _ hn, links, hfn, hl⟩
        · rintro ⟨hls, n, hn, links, hfn, hl⟩
          rcases List.mem_cons.mp hn with rfl | hn
          · rw [hf] at hfn; cases hfn
          · exact ⟨hls, n, hn, links, hfn, hl⟩
      · intro g n hgn
        obtain ⟨h1, h2, h3⟩ := ih3 g n hgn
        exact ⟨h1, List.mem_cons_of_mem _ h2, h3⟩
      · intro g n hgn l hl m hm hmn links' hfm
        rcases List.mem_cons.mp hm with rfl | hm
        · rw [hf] at hfm
          cases hfm
        · exact ih4 g n hgn l hl m hm hmn links' hfm
    | some links =>
      by_cases hemp : links.isEmpty
      · have hnil : links = [] := List.isEmpty_iff.mp hemp
        subst hnil
        rw [discoverLoop_some_nil fetch pageNum seen f hf]
        refine ⟨?_, by simp, by simp, by simp⟩
        intro l
        simp only [List.map_nil, List.flatten_nil, List.not_mem_nil, false_iff]
        rintro ⟨hls, n, hn, links', hfn, hl⟩
        rw [List.mem_singleton] at hn
        subst hn
        rw [hf] at hfn
        injection hfn with hlk
        subst hlk
        simp at hl
      · obtain ⟨ih1, ih2, ih3, ih4⟩ :=
          ih (pageNum + 1) (seen ++ links.filter (fun l => !(seen.contains l)))
        rw [discoverLoop_some_fst fetch pageNum seen f links hf hemp,
          discoverLoop_some_snd fetch pageNum seen f links hf hemp]
        set newU := links.filter (fun l => !(seen.contains l)) with hnewU
        set rest := discoverLoop fetch (pageNum + 1) (seen ++ newU) f with hrest
        have hflat : (((if newU.isEmpty then rest.1
            else (newU, pageNum) :: rest.1)).map Prod.fst).flatten
            = newU ++ (rest.1.map Prod.fst).flatten := by
          by_cases hh : newU.isEmpty
          · have hn0 : newU = [] := List.isEmpty_iff.mp hh
            rw [if_pos hh, hn0]
            simp
          · rw [if_neg hh]
            simp
        have hmemU : ∀ l, l ∈ newU ↔ (l ∈ links ∧ l ∉ seen) := by
          intro l
          rw [hnewU, List.mem_filter]
          simp
        have hrestfresh : ∀ g n, (g, n) ∈ rest.1 → ∀ l ∈ g, l ∉ links := by
          intro g n hgn l hl hlin
          have hmemflat : l ∈ (rest.1.map Prod.fst).flatten :=
            List.mem_flatten.mpr ⟨g, List.mem_map_of_mem Prod.fst hgn, hl⟩
          have hnotin := ((ih1 l).mp hmemflat).1
          rw [List.mem_append] at hnotin
          push_neg at hnotin
          by_cases hsl : l ∈ seen
          · exact hnotin.1 hsl
          · exact hnotin.2 ((hmemU l).mpr ⟨hlin, hsl⟩)
        refine ⟨?_, ?_, ?_, ?_⟩
        · intro l
          rw [hflat, List.mem_append]
          constructor
          · rintro (hl | hl)
            · obtain ⟨hlk, hls⟩ := (hmemU l).mp hl
              exact ⟨hls, pageNum, List.mem_cons_self _ _, links, hf, hlk⟩
            · obtain ⟨hls, n, hn, links', hfn, hl'⟩ := (ih1 l).mp hl
              rw [List.mem_append] at hls
              push_neg at hls
              exact ⟨hls.1, n, List.mem_cons_of_mem _ hn, links', hfn, hl'⟩
          · rintro ⟨hls, n, hn, links', hfn, hl⟩
            rcases List.mem_cons.mp hn with rfl | hn
            · rw [hf] at hfn
              injection hfn with hlk
              subst hlk
              exact Or.inl ((hmemU l).mpr ⟨hl, hls⟩)
            · by_cases hin : l ∈ newU
              · exact Or.inl hin
              · refine Or.inr ((ih1 l).mpr ⟨?_, n, hn, links', hfn, hl⟩)
                rw [List.mem_append]
                push_neg
                exact ⟨hls, hin⟩
        · rw [hflat]
          refine List.nodup_append.mpr ⟨?_, ih2, ?_⟩
          · rw [hnewU]
            exact (hnd pageNum links hf).filter _
          · intro x hx hx'
            have hfwd := ((ih1 x).mp hx').1
            rw [List.mem_append] at hfwd
            push_neg at hfwd
            exact hfwd.2 hx
        · intro g n hgn
          by_cases hh : newU.isEmpty
          · rw [if_pos hh] at hgn
            obtain ⟨h1, h2, h3⟩ := ih3 g n hgn
            exact ⟨h1, List.mem_cons_of_mem _ h2, h3⟩
          · rw [if_neg hh] at hgn
            rcases List.mem_cons.mp hgn with heq | hgn
            · injection heq with hg hn
              subst hg
              subst hn
              refine ⟨fun hcon => ?_, List.mem_cons_self _ _,
                links, hf, fun l hl => ((hmemU l).mp hl).1⟩
              rw [hcon] at hh
              exact hh List.isEmpty_nil
            · obtain ⟨h1, h2, h3⟩ := ih3 g n hgn
              exact ⟨h1, List.mem_cons_of_mem _ h2, h3⟩
        · intro g n hgn l hl m hm hmn links' hfm
          by_cases hh : newU.isEmpty
          · rw [if_pos hh] at hgn
            rcases List.mem_cons.mp hm with rfl | hm
            · rw [hf] at hfm
              injection hfm with hlk
              subst hlk
              exact hrestfresh g n hgn l hl
            · exact ih4 g n hgn l hl m hm hmn links' hfm
          · rw [if_neg hh] at hgn
            rcases List.mem_cons.mp hgn with heq | hgn
            · injection heq with hg hn2
              subst hg
              subst hn2
              rcases List.mem_cons.mp hm with rfl | hm
              · omega
              · have hlb := discoverLoop_visited_lb fetch f _ _ m hm
                omega
            · rcases List.mem_cons.mp hm with rfl | hm
              · rw [hf] at hfm
                injection hfm with hlk
                subst hlk
                exact hrestfresh g n hgn l hl
              · exact ih4 g n hgn l hl m hm hmn links' hfm

/-- C5: for every listing whose per-page raw link sets may overlap (each
page's raw links duplicate-free, as a set), the discoverer's emitted
identifier set — the union of its emitted page groups — has no duplicate
identifiers and is exactly the union of the raw link sets of the visited
pages; every emitted group is non-empty, tagged with a visited page, and
contains only identifiers raw on that page; a group's identifiers are raw
on no earlier visited page, so each identifier appears only in the group
of its page of first discovery; and a visited page all of whose raw links
already occur on earlier visited pages — a page contributing no new
identifiers — has no group in the output. -/
theorem C5_discoverer_dedup (fetch : Nat → Option (List String)) (maxPages : Nat)
    (hnd : ∀ n links, fetch n = some links → links.Nodup) :
    (((getDoctorLinksWithPagination fetch maxPages).map Prod.fst).flatten).Nodup ∧
    (∀ l, l ∈ ((getDoctorLinksWithPagination fetch maxPages).map Prod.fst).flatten ↔
      ∃ n ∈ visitedPages fetch maxPages, ∃ links, fetch n = some links ∧ l ∈ links) ∧
    (∀ g n, (g, n) ∈ getDoctorLinksWithPagination fetch maxPages →
      g ≠ [] ∧ n ∈ visitedPages fetch maxPages ∧
      ∃ links, fetch n = some links ∧ ∀ l ∈ g, l ∈ links) ∧
    (∀ g n, (g, n) ∈ getDoctorLinksWithPagination fetch maxPages →
      ∀ l ∈ g, ∀ m ∈ visitedPages fetch maxPages, m < n →
      ∀ links', fetch m = some links' → l ∉ links') ∧
    (∀ n ∈ visitedPages fetch maxPages, ∀ links, fetch n = some links →
      (∀ l ∈ links, ∃ m ∈ visitedPages fetch maxPages, m < n ∧
        ∃ links', fetch m = some links' ∧ l ∈ links') →
      ∀ g, (g, n) ∉ getDoctorLinksWithPagination fetch maxPages) := by
  obtain ⟨h1, h2, h3, h4⟩ := discoverLoop_spec fetch hnd maxPages 1 []
  unfold getDoctorLinksWithPagination visitedPages
  refine ⟨h2, fun l => ?_, h3, h4, ?_⟩
  · rw [h1 l]
    simp
  · intro n hn links hfn hall g hgn
    obtain ⟨hne, _, links₂, hfn₂, hsub⟩ := h3 g n hgn
    rw [hfn] at hfn₂
    injection hfn₂ with hlk
    subst hlk
    obtain ⟨l, hl⟩ := List.exists_mem_of_ne_nil g hne
    obtain ⟨m, hm, hmn, links', hfm', hlm⟩ := hall l (hsub l hl)
    exact h4 g n hgn l hl m hm hmn links' hfm' hlm

theorem C5_discoverer_dedup_witness :
    (((getDoctorLinksWithPagination fetchC 2).map Prod.fst).flatten).Nodup ∧
    ("c" ∈ ((getDoctorLinksWithPagination fetchC 2).map Prod.fst).flatten ↔
      ∃ n ∈ visitedPages fetchC 2, ∃ links, fetchC n = some links ∧ "c" ∈ links) := by
  have hnd : ∀ n links, fetchC n = some links → links.Nodup := by
    intro n links h
    rw [fetchC] at h
    by_cases h1 : n = 1
    · rw [if_pos h1] at h
      injection h with hl
      subst hl
      decide
    · rw [if_neg h1] at h
      by_cases h2 : n = 2
      · rw [if_pos h2] at h
        injection h with hl
        subst hl
        decide
      · rw [if_neg h2] at h
        injection h with hl
        subst hl
        decide
  have h := C5_discoverer_dedup fetchC 2 hnd
  exact ⟨h.1, h.2.1 "c"⟩

theorem discoverLoop_head (fetch : Nat → Option (List String)) :
    ∀ (fuel pageNum : Nat) (seen : List String), 0 < fuel →
      pageNum ∈ (discoverLoop fetch pageNum seen fuel).2 := by
  intro fuel
  cases fuel with
  | zero => intro pageNum seen h; omega
  | succ f =>
    intro pageNum seen _
    cases hf : fetch pageNum with
    | none =>
      rw [discoverLoop_none_snd fetch pageNum seen f hf]
      exact List.mem_cons_self _ _
    | some links =>
      by_cases hemp : links.isEmpty
      · have hnil : links = [] := List.isEmpty_iff.mp hemp
        subst hnil
        rw [discoverLoop_some_nil_snd fetch pageNum seen f hf]
        exact List.mem_singleton.mpr rfl
      · rw [discoverLoop_some_snd fetch pageNum seen f links hf hemp]
        exact List.mem_cons_self _ _

theorem discoverLoop_stop (fetch : Nat → Option (List String)) :
    ∀ (fuel pageNum : Nat) (seen : List String) (k : Nat),
      k ∈ (discoverLoop fetch pageNum seen fuel).2 → fetch k = some [] →
      ∀ m, k < m → m ∉ (discoverLoop fetch pageNum seen fuel).2 := by
  intro fuel
  induction fuel with
  | zero =>
    intro pageNum seen k hk
    simp [discoverLoop] at hk
  | succ f ih =>
    intro pageNum seen k hk hke m hm
    cases hf : fetch pageNum with
    | none =>
      rw [discoverLoop_none_snd fetch pageNum seen f hf] at hk ⊢
      rcases List.mem_cons.mp hk with rfl | hk
      · rw [hf] at hke
        cases hke
      · intro hmem
        rcases List.mem_cons.mp hmem with rfl | hmem
        · have hlb := discoverLoop_visited_lb fetch f (m + 1) seen k hk
          omega
        · exact ih (pageNum + 1) seen k hk hke m hm hmem
    | some links =>
      by_cases hemp : links.isEmpty
      · have hnil : links = [] := List.isEmpty_iff.mp hemp
        subst hnil
        rw [discoverLoop_some_nil_snd fetch pageNum seen f hf] at hk ⊢
        rw [List.mem_singleton] at hk
        subst hk
        intro hmem
        rw [List.mem_singleton] at hmem
        omega
      · rw [discoverLoop_some_snd fetch pageNum seen f links hf hemp] at hk ⊢
        rcases List.mem_cons.mp hk with rfl | hk
        · rw [hf] at hke
          injection hke with hl
          subst hl
          exact absurd List.isEmpty_nil hemp
        · intro hmem
          rcases List.mem_cons.mp hmem with rfl | hmem
          · have hlb := discoverLoop_visited_lb fetch f (m + 1) _ k hk
            omega
          · exact ih (pageNum + 1) _ k hk hke m hm hmem

theorem discoverLoop_cont (fetch : Nat → Option (List String)) :
    ∀ (fuel pageNum : Nat) (seen : List String) (k : Nat) (links : List String),
      k ∈ (discoverLoop fetch pageNum seen fuel).2 → fetch k = some links →
      links ≠ [] → k + 1 < pageNum + fuel →
      (k + 1) ∈ (discoverLoop fetch pageNum seen fuel).2 := by
  intro fuel
  induction fuel with
  | zero =>
    intro pageNum seen k links hk
    simp [discoverLoop] at hk
  | succ f ih =>
    intro pageNum seen k links hk hkl hne hbound
    cases hf : fetch pageNum with
    | none =>
      rw [discoverLoop_none_snd fetch pageNum seen f hf] at hk ⊢
      rcases List.mem_cons.mp hk with rfl | hk
      · rw [hf] at hkl
        cases hkl
      · exact List.mem_cons_of_mem _
          (ih (pageNum + 1) seen k links hk hkl hne (by omega))
    | some links₀ =>
      by_cases hemp : links₀.isEmpty
      · have hnil : links₀ = [] := List.isEmpty_iff.mp hemp
        subst hnil
        rw [discoverLoop_some_nil_snd fetch pageNum seen f hf] at hk ⊢
        rw [List.mem_singleton] at hk
        subst hk
        rw [hf] at hkl
        injection hkl with hl
        exact absurd hl.symm hne
      · rw [discoverLoop_some_snd fetch pageNum seen f links₀ hf hemp] at hk ⊢
        rcases List.mem_cons.mp hk with rfl | hk
        · refine List.mem_cons_of_mem _ ?_
          exact discoverLoop_head fetch f (k + 1) _ (by omega)
        · exact List.mem_cons_of_mem _
            (ih (pageNum + 1) _ k links hk hkl hne (by omega))

/-- C6: during a page walk capped at maxPages, a visited page with zero
raw candidate links stops the walk — no page with a higher number is ever
fetched — while a visited page whose raw links are non-empty (even if all
of them are global duplicates contributing nothing new) does not stop it:
the next page within the cap is still fetched. -/
theorem C6_zero_raw_stops (fetch : Nat → Option (List String)) (maxPages k : Nat)
    (hk : k ∈ visitedPages fetch maxPages) :
    (fetch k = some [] → ∀ m, k < m → m ∉ visitedPages fetch maxPages) ∧
    (∀ links, fetch k = some links → links ≠ [] → k + 1 ≤ maxPages →
      (k + 1) ∈ visitedPages fetch maxPages) := by
  unfold visitedPages at hk ⊢
  exact ⟨fun h m hm => discoverLoop_stop fetch maxPages 1 [] k hk h m hm,
    fun links h hne hle =>
      discoverLoop_cont fetch maxPages 1 [] k links hk h hne (by omega)⟩

theorem C6_zero_raw_stops_witness :
    3 ∉ visitedPages fetchA 3 ∧ 2 ∈ visitedPages fetchA 3 := by
  have h2 := C6_zero_raw_stops fetchA 3 2 (by decide)
  have h1 := C6_zero_raw_stops fetchA 3 1 (by decide)
  exact ⟨h2.1 rfl 3 (by omega), h1.2 ["a"] rfl (by decide) (by omega)⟩

/-! ## Claim C9: concurrency ceiling of the chunked batch runner -/

theorem startCount_append (a b : List BatchEv) :
    startCount (a ++ b) = startCount a + startCount b := by
  simp [startCount, List.filterMap_append]

theorem finishCount_append (a b : List BatchEv) :
    finishCount (a ++ b) = finishCount a + finishCount b := by
  simp [finishCount, List.filterMap_append]

theorem chunkSeg_startCount {chunk : List String} {seg : List BatchEv}
    (h : ChunkSeg chunk seg) : startCount seg = chunk.length :=
  h.1.length_eq

theorem chunkSeg_finishCount {chunk : List String} {seg : List BatchEv}
    (h : ChunkSeg chunk seg) : finishCount seg = chunk.length :=
  h.2.length_eq

theorem segs_ceiling (N : Nat) :
    ∀ (chunks : List (List String)) (segs : List (List BatchEv)),
      List.Forall₂ ChunkSeg chunks segs → (∀ c ∈ chunks, c.length ≤ N) →
      ∀ p r, p ++ r = segs.flatten → inFlight p ≤ N := by
  intro chunks segs hf
  induction hf with
  | nil =>
    intro _ p r hpr
    have hlen := congrArg List.length hpr
    simp at hlen
    have hp : p = [] := hlen.1
    subst hp
    simp [inFlight, startCount, finishCount]
  | @cons c s cs ss hcs htl ih =>
    intro hlen p r hpr
    rw [List.flatten_cons] at hpr
    rcases List.append_eq_append_iff.mp hpr with ⟨a', ha1, _⟩ | ⟨c', hc1, hc2⟩
    · have hps : startCount p ≤ startCount s := by
        rw [ha1, startCount_append]
        omega
      calc inFlight p ≤ startCount p := Nat.sub_le _ _
        _ ≤ startCount s := hps
        _ = c.length := chunkSeg_startCount hcs
        _ ≤ N := hlen c (List.mem_cons_self _ _)
    · rw [hc1]
      unfold inFlight
      rw [startCount_append, finishCount_append, chunkSeg_startCount hcs,
        chunkSeg_finishCount hcs, Nat.add_sub_add_left]
      exact ih (fun c2 hc2m => hlen c2 (List.mem_cons_of_mem _ hc2m)) c' r hc2.symm

theorem segs_boundary (chunks : List (List String)) (segs : List (List BatchEv))
    (hf : List.Forall₂ ChunkSeg chunks segs) :
    startCount segs.flatten = finishCount segs.flatten := by
  induction hf with
  | nil => rfl
  | cons hcs htl ih =>
    rw [List.flatten_cons, startCount_append, finishCount_append,
      chunkSeg_startCount hcs, chunkSeg_finishCount hcs, ih]

/-- C9: in every trace a batch-runner invocation with concurrency limit
N > 0 can produce — a concatenation of one event segment per chunk of
`chunksOf N items`, each segment holding exactly its chunk's starts and
finishes — no prefix ever has more than N operations in flight; and at
every chunk boundary the in-flight count is 0, i.e. each chunk completes
fully before any operation of the next chunk starts. -/
theorem C9_concurrency_ceiling (items : List String) (N : Nat) (tr : List BatchEv)
    (hN : 0 < N) (htr : RunTrace items N tr) :
    (∀ p r, p ++ r = tr → inFlight p ≤ N) ∧
    (∀ segs, List.Forall₂ ChunkSeg (chunksOf N items) segs →
      ∀ i, inFlight ((segs.take i).flatten) = 0) := by
  obtain ⟨segs, hforall, rfl⟩ := htr
  constructor
  · intro p r hpr
    exact segs_ceiling N (chunksOf N items) segs hforall
      (chunksOf_length_le N hN items) p r hpr
  · intro segs' hforall' i
    have hb := segs_boundary _ _ (List.forall₂_take i hforall')
    simp [inFlight, hb]

theorem C9_concurrency_ceiling_witness :
    inFlight [BatchEv.start "a", BatchEv.start "b"] ≤ 2 := by
  have hch : chunksOf 2 ["a", "b", "c"] = [["a", "b"], ["c"]] := by decide
  have htr : RunTrace ["a", "b", "c"] 2 trW := by
    refine ⟨[[.start "a", .start "b", .finish "b", .finish "a"],
             [.start "c", .finish "c"]], ?_, rfl⟩
    rw [hch]
    exact List.Forall₂.cons ⟨by decide, by decide⟩
      (List.Forall₂.cons ⟨by decide, by decide⟩ List.Forall₂.nil)
  exact (C9_concurrency_ceiling ["a", "b", "c"] 2 trW (by omega) htr).1
    [BatchEv.start "a", BatchEv.start "b"]
    [.finish "b", .finish "a", .start "c", .finish "c"] rfl
